import Mathlib

/-!
# Verification of the dataloaden batching/caching engine

Shallow embedding of the generic data loader in `data_loader.go` and of the
generated `UserLoader` (its default error formatter and `Prime`), together
with proofs of the specification's claims about them.

Modelling conventions:
* Go pointer values `*V` become `Option V` (`none` is the nil pointer).
* Go `error` values become `Option E` (`none` is the nil error); the
  aggregate built by the `errors.Join` loop in `LoadThunk` becomes the list
  of non-nil errors in batch order, `none` when there are no errors.
* The Go map `cache` becomes an association list with map lookup/update.
* The loader's `batch *genericLoaderBatch` pointer becomes an index into a
  list of every batch ever created, so that thunks can keep referring to a
  batch after it detaches from the loader.
* The `done` channel becomes a `done : Bool` field set when `end` runs;
  the one-shot timer goroutine spawned at the first key attachment becomes
  a ghost `timerFired : Bool` flag consumed by the timer step.
* Each top-level operation runs under the loader mutex in the source, so it
  becomes one atomic step of a small-step relation on configurations.
-/

namespace Dataloaden

/-- One batch (`genericLoaderBatch` in `data_loader.go`): collected `keys`,
the `data`/`error` slices written by `end`, the one-way `closing` flag, and
the completion signal `done` (the closed channel). `timerFired` is a ghost
flag recording that this batch's one-shot `startTimer` goroutine already ran
(it does not correspond to a Go struct field). -/
structure Batch (K V E : Type) where
  keys : List K
  data : List (Option V)
  error : List (Option E)
  closing : Bool
  done : Bool
  timerFired : Bool
deriving Repr, DecidableEq

/-- The batch freshly allocated in `LoadThunk` by
`&genericLoaderBatch{done: make(chan struct{})}`. -/
def freshBatch {K V E : Type} : Batch K V E :=
  { keys := [], data := [], error := [], closing := false, done := false, timerFired := false }

instance {K V E : Type} : Inhabited (Batch K V E) := ⟨freshBatch⟩

/-- Go map lookup `m[key]` (with the `ok` flag as the `Option`). -/
def mapLookup {K : Type} [DecidableEq K] {A : Type} (m : List (K × A)) (key : K) : Option A :=
  (m.find? (fun p => decide (p.1 = key))).map (·.2)

/-- Go map update `m[key] = v` (the body of `unsafeSet`; the lazily created
nil map is the empty association list). -/
def mapSet {K : Type} [DecidableEq K] {A : Type} (m : List (K × A)) (key : K) (v : A) :
    List (K × A) :=
  (key, v) :: m.filter (fun p => decide (¬p.1 = key))

/-- A loader configuration: the immutable construction arguments (`fetch`,
`maxBatch`), the guarded mutable pair (`cache`, `batch`, the latter as
`current : Option Nat` indexing into `batches`), every batch ever created,
and a ghost log `fetchCalls` of each key list ever passed to `fetch`.
`wait : time.Duration` only decides *when* the timer step fires, so it has
no field here; the timer step may fire at any time. -/
structure Config (K V E : Type) where
  fetch : List K → List (Option V) × List (Option E)
  maxBatch : Int
  cache : List (K × Option V)
  current : Option Nat
  batches : List (Batch K V E)
  fetchCalls : List (List K)

/-- The loader built by `NewDataLoader`: empty cache, no current batch. -/
def initConfig {K V E : Type} (fetch : List K → List (Option V) × List (Option E))
    (maxBatch : Int) : Config K V E :=
  { fetch := fetch, maxBatch := maxBatch, cache := [], current := none,
    batches := [], fetchCalls := [] }

/-- Function `genericLoaderBatch.end`: run the fetch on the batch's keys, store the
two parallel slices, and close `done`. -/
def endBatch {K V E : Type} (fetch : List K → List (Option V) × List (Option E))
    (b : Batch K V E) : Batch K V E :=
  { b with data := (fetch b.keys).1, error := (fetch b.keys).2, done := true }

/-- The `for i, existingKey := range b.keys` scan at the top of `keyIndex`:
the index of the first element equal to `key`, if any. -/
def keyIndexLookup {K : Type} [DecidableEq K] (key : K) : List K → Option Nat
  | [] => none
  | k :: rest => if key = k then some 0 else (keyIndexLookup key rest).map (· + 1)

/-- Method `genericLoaderBatch.keyIndex` minus the loader-level effects: returns the
position of `key`, the updated batch, and whether the capacity branch fired
(in the source that branch additionally sets `l.batch = nil` and spawns
`go b.end(l)`; `loadThunkStep` performs those effects). -/
def keyIndexCore {K V E : Type} [DecidableEq K] (maxBatch : Int) (b : Batch K V E)
    (key : K) : Nat × Batch K V E × Bool :=
  match keyIndexLookup key b.keys with
  | some i => (i, b, false)
  | none =>
    let pos := b.keys.length
    let b1 : Batch K V E := { b with keys := b.keys ++ [key] }
    if maxBatch ≠ 0 ∧ (pos : Int) ≥ maxBatch - 1 then
      if b1.closing then (pos, b1, false)
      else (pos, { b1 with closing := true }, true)
    else (pos, b1, false)

/-- The deferred handle `LoadThunk` returns: either the already-resolved
closure over a cache hit, or a pending closure capturing the batch it
attached to and the key's position in that batch. -/
inductive LoadedThunk (K V E : Type) where
  | cached (v : Option V)
  | pending (batchId : Nat) (pos : Nat) (key : K)
deriving Repr, DecidableEq

/-- Method `genericLoader.LoadThunk`, the part executed under `l.mu` at call time:
cache check; lazy creation of the current batch; `keyIndex` with its
loader-level effects (capacity branch clears `l.batch` and dispatches
`end`, which we log in `fetchCalls`). Returns the deferred handle and the
updated configuration. -/
def loadThunkStep {K V E : Type} [DecidableEq K] (c : Config K V E) (key : K) :
    LoadedThunk K V E × Config K V E :=
  match mapLookup c.cache key with
  | some it => (.cached it, c)
  | none =>
    let create := c.current.isNone
    let bid := match c.current with
      | some bid => bid
      | none => c.batches.length
    let batches := if create then c.batches ++ [freshBatch] else c.batches
    let b := batches.getD bid default
    let r := keyIndexCore c.maxBatch b key
    if r.2.2 then
      (.pending bid r.1 key,
        { c with batches := batches.set bid (endBatch c.fetch r.2.1),
                 current := none,
                 fetchCalls := c.fetchCalls ++ [r.2.1.keys] })
    else
      (.pending bid r.1 key,
        { c with batches := batches.set bid r.2.1, current := some bid })

/-- The pending thunk's body in `LoadThunk`, executed after `<-batch.done`:
positional read of `batch.data` guarded by `pos < len(batch.data)`, the
`errors.Join` loop over `batch.error`, and—only when the aggregate is
nil—the cache write-back `l.unsafeSet(key, data)`. Returns the value, the
aggregate error, and the resulting cache. -/
def resolveThunk {K V E : Type} [DecidableEq K] (b : Batch K V E) (pos : Nat) (key : K)
    (cache : List (K × Option V)) :
    Option V × Option (List E) × List (K × Option V) :=
  let data : Option V := if pos < b.data.length then b.data.getD pos none else none
  let errs : List E := b.error.filterMap id
  if errs.isEmpty then (data, none, mapSet cache key data)
  else (data, some errs, cache)

/-- Resolving a cache-hit thunk: the closure `func() { return it, nil }`. -/
def resolveCached {V E : Type} (v : Option V) :
    Option V × Option (List E) := (v, none)

/-- Method `startTimer` after `time.Sleep(l.wait)`, i.e. the locked region:
if the batch already closed via the capacity branch, return; otherwise
clear `l.batch` and run `end`. Either way the one-shot timer is consumed
(ghost `timerFired`). -/
def timerFireStep {K V E : Type} (c : Config K V E) (bid : Nat) : Config K V E :=
  let b := c.batches.getD bid default
  if b.closing then
    { c with batches := c.batches.set bid { b with timerFired := true } }
  else
    { c with current := none,
             batches := c.batches.set bid { endBatch c.fetch b with timerFired := true },
             fetchCalls := c.fetchCalls ++ [b.keys] }

/-- Method `genericLoader.Clear`: `delete(l.cache, key)` under the lock. -/
def clearStep {K V E : Type} [DecidableEq K] (c : Config K V E) (key : K) : Config K V E :=
  { c with cache := c.cache.filter (fun p => decide (¬p.1 = key)) }

/-- Method `genericLoader.Prime` at configuration level, for a non-nil `value`
pointer: if the key is absent, store the copied pointee. (The pointer-level
behaviour, including the nil-pointer dereference, is modelled separately by
`PrimeState.prime`.) -/
def primeStep {K V E : Type} [DecidableEq K] (c : Config K V E) (key : K) (v : V) :
    Config K V E :=
  if (mapLookup c.cache key).isSome then c
  else { c with cache := mapSet c.cache key (some v) }

/-- Resolving a pending thunk against the configuration: reads its batch and
applies `resolveThunk`, whose cache write-back updates the configuration. -/
def resolveStep {K V E : Type} [DecidableEq K] (c : Config K V E) (bid pos : Nat)
    (key : K) : Config K V E :=
  { c with cache := (resolveThunk (c.batches.getD bid default) pos key c.cache).2.2 }

/-- One atomic step of the loader: each constructor is one critical section
of the source (or a pure cache-hit return). The timer step requires that
this batch's one-shot timer goroutine has not fired yet; resolution requires
that the batch's `done` channel is closed (`<-batch.done` returned). -/
inductive Step {K V E : Type} [DecidableEq K] : Config K V E → Config K V E → Prop where
  | load (c : Config K V E) (key : K) : Step c (loadThunkStep c key).2
  | timer (c : Config K V E) (bid : Nat) (h : bid < c.batches.length)
      (hf : (c.batches.getD bid default).timerFired = false) : Step c (timerFireStep c bid)
  | clear (c : Config K V E) (key : K) : Step c (clearStep c key)
  | prime (c : Config K V E) (key : K) (v : V) : Step c (primeStep c key v)
  | resolve (c : Config K V E) (bid pos : Nat) (key : K)
      (hd : (c.batches.getD bid default).done = true) : Step c (resolveStep c bid pos key)

/-- Configurations reachable from a freshly constructed loader. -/
def Reachable {K V E : Type} [DecidableEq K]
    (fetch : List K → List (Option V) × List (Option E)) (maxBatch : Int)
    (c : Config K V E) : Prop :=
  Relation.ReflTransGen Step (initConfig fetch maxBatch) c

/-- The first loop of `LoadAll` / `LoadAllThunk`:
`for i, key := range keys { results[i] = l.LoadThunk(key) }` — one deferred
per key, attached in input order, before any resolution. -/
def loadAllThunks {K V E : Type} [DecidableEq K] :
    Config K V E → List K → List (LoadedThunk K V E) × Config K V E
  | c, [] => ([], c)
  | c, key :: rest =>
    let r := loadThunkStep c key
    let rr := loadAllThunks r.2 rest
    (r.1 :: rr.1, rr.2)

/-- Calling one deferred (`thunk()`): a cache-hit thunk returns its captured
value with nil error; a pending thunk runs the resolution body against its
batch, possibly writing the cache back. -/
def resolveOne {K V E : Type} [DecidableEq K] (c : Config K V E) (t : LoadedThunk K V E) :
    (Option V × Option (List E)) × Config K V E :=
  match t with
  | .cached v => (resolveCached v, c)
  | .pending bid pos key =>
    let r := resolveThunk (c.batches.getD bid default) pos key c.cache
    ((r.1, r.2.1), { c with cache := r.2.2 })

/-- The second loop of `LoadAll`:
`for i, thunk := range results { users[i], errs[i] = thunk() }` — resolves
the deferreds in order, collecting the two output slices. -/
def resolveAll {K V E : Type} [DecidableEq K] :
    Config K V E → List (LoadedThunk K V E) →
      (List (Option V) × List (Option (List E))) × Config K V E
  | c, [] => (([], []), c)
  | c, t :: rest =>
    let r := resolveOne c t
    let rr := resolveAll r.2 rest
    ((r.1.1 :: rr.1.1, r.1.2 :: rr.1.2), rr.2)

/-- Method `genericLoader.LoadAll`: the attachment pass followed by the resolution
pass. -/
def loadAll {K V E : Type} [DecidableEq K] (c : Config K V E) (keys : List K) :
    (List (Option V) × List (Option (List E))) × Config K V E :=
  let r := loadAllThunks c keys
  resolveAll r.2 r.1

/-! ## Pointer-level model of `Prime`

`Prime(key, value *V)` copies the pointee (`cpy := *value`) and caches the
address of the copy. To state the defensive-copy property and the nil-pointer
dereference we model the heap explicitly: a pointer is an index into `heap`,
allocation appends a cell, and the cache maps keys to pointers. -/

/-- Heap and cache as seen by `Prime`: `heap` holds the pointees, `cache`
maps each cached key to the index of its cell. -/
structure PrimeState (K V : Type) where
  heap : List V
  cache : List (K × Nat)
deriving Repr, DecidableEq

/-- Overwrite the cell `p` points to (a caller mutating `*value` through its
own reference after priming). -/
def heapWrite {K V : Type} (s : PrimeState K V) (p : Nat) (v : V) : PrimeState K V :=
  { s with heap := s.heap.set p v }

/-- Method `genericLoader.Prime` at pointer level. `value : Option Nat` is the `*V`
argument (`none` is the nil pointer). If the key is cached, return `false`
without touching `value`. Otherwise `cpy := *value` dereferences it — `none`
here is the nil-pointer panic, modelled as the `Option.none` outcome — and
`unsafeSet(key, &cpy)` caches the address of the fresh copy. -/
def prime {K V : Type} [DecidableEq K] (s : PrimeState K V) (key : K)
    (value : Option Nat) : Option (Bool × PrimeState K V) :=
  if (mapLookup s.cache key).isSome then some (false, s)
  else
    match value with
    | none => none
    | some p =>
      match s.heap.get? p with
      | none => none
      | some v =>
        some (true, { heap := s.heap ++ [v], cache := mapSet s.cache key s.heap.length })

/-! ## The generated `UserLoader.defaultFormatErrors`

Errors are represented by their message strings (`err.Error()`). Go map
iteration order is unspecified; the model enumerates the distinct messages
in a fixed order (`dedup`), which is one admissible iteration order, and
`sort.Slice(..., occurrences[i] > occurrences[j])` becomes `mergeSort` with
the corresponding descending comparison. -/

/-- The `countsByErrors` map together with the `sortedErrorOccurrences`
slice built from it (before sorting): each distinct message paired with its
occurrence count. -/
def countsByErrors (errs : List String) : List (String × Nat) :=
  errs.dedup.map (fun m => (m, errs.count m))

/-- Method `UserLoader.defaultFormatErrors`: a single error renders as its own
message; otherwise group by message, count, sort by descending occurrence
count, render each group as `" * <count> <message>\n"`, and wrap in
`fmt.Sprintf("%d errors occurred:\n%s\n", len(errors), sb.String())`. -/
def defaultFormatErrors (errs : List String) : String :=
  if errs.length = 1 then errs.headD ""
  else
    let sorted := (countsByErrors errs).mergeSort (fun a b => decide (b.2 ≤ a.2))
    let body := String.join (sorted.map (fun p => " * " ++ toString p.2 ++ " " ++ p.1 ++ "\n"))
    toString errs.length ++ " errors occurred:\n" ++ body ++ "\n"

/-! ## Lock discipline of the two flush paths

To settle the claim that the fetch collaborator never runs while the
loader's mutex is held, each goroutine that completes a batch is
transcribed, statement by statement, into a list of events; `lockDepth`
counts `mu.Lock`/`mu.Unlock` in the program order of that goroutine, so an
event holds the mutex iff the depth of the events before it is positive. -/

/-- One statement-level event in a goroutine's program order. -/
inductive LockEvent where
  | sleep
  | lock
  | unlock
  | checkClosing
  | clearCurrent
  | fetchCall
  | closeDone
deriving Repr, DecidableEq

/-- Method `genericLoaderBatch.startTimer`, the goroutine spawned at the first key
attachment: `time.Sleep(l.wait)`; `l.mu.Lock()` with `defer l.mu.Unlock()`;
`if b.closing { return }` (the deferred unlock runs); otherwise
`l.batch = nil` and `b.end(l)` (fetch, then `close(b.done)`), after which
the deferred unlock finally runs. -/
def startTimerTrace (closing : Bool) : List LockEvent :=
  [.sleep, .lock, .checkClosing] ++
    (if closing then [.unlock]
     else [.clearCurrent, .fetchCall, .closeDone, .unlock])

/-- The `go b.end(l)` goroutine spawned by the capacity branch of
`keyIndex`: it runs `end` — fetch, then `close(b.done)` — and performs no
mutex operation of its own. -/
def capacityEndTrace : List LockEvent := [.fetchCall, .closeDone]

/-- Net number of locks minus unlocks performed by a list of events. -/
def lockDepth (tr : List LockEvent) : Int :=
  tr.foldl (fun d e =>
    match e with
    | .lock => d + 1
    | .unlock => d - 1
    | _ => d) 0

/-- Whether some `fetchCall` event of the trace runs while the goroutine
holds the mutex (positive lock depth over the events before it). -/
def fetchHeldLock (tr : List LockEvent) : Bool :=
  (List.range tr.length).any
    (fun i => decide (tr.getD i .sleep = .fetchCall) && decide (0 < lockDepth (tr.take i)))

/-- The state invariant maintained by every reachable configuration: batch
key lists are distinct and nonempty, an open batch (neither closed by the
capacity branch nor flushed by its timer) is exactly the loader's current
batch, the current batch is strictly below the capacity cap, and every key
list already passed to `fetch` is duplicate-free and within the cap. -/
structure Inv {K V E : Type} [DecidableEq K] (c : Config K V E) : Prop where
  batchNodup : ∀ bid, bid < c.batches.length → (c.batches.getD bid default).keys.Nodup
  batchNonempty : ∀ bid, bid < c.batches.length → (c.batches.getD bid default).keys ≠ []
  openIsCurrent : ∀ bid, bid < c.batches.length →
    (c.batches.getD bid default).closing = false →
    (c.batches.getD bid default).timerFired = false →
    c.current = some bid
  currentLt : ∀ bid, c.current = some bid → bid < c.batches.length
  currentOpen : ∀ bid, c.current = some bid → (c.batches.getD bid default).closing = false
  currentSize : ∀ bid, c.current = some bid → 0 < c.maxBatch →
    ((c.batches.getD bid default).keys.length : Int) ≤ c.maxBatch - 1
  callsNodup : ∀ ks ∈ c.fetchCalls, ks.Nodup
  callsSize : ∀ ks ∈ c.fetchCalls, 0 < c.maxBatch → (ks.length : Int) ≤ c.maxBatch

/-! ## Generic list and map lemmas -/

theorem getD_set_eq {α : Type _} (l : List α) (i : Nat) (a d : α) (h : i < l.length) :
    (l.set i a).getD i d = a := by
  simp [List.getD_eq_getElem?_getD, List.getElem?_set_self h]

theorem getD_set_ne {α : Type _} (l : List α) {i j : Nat} (h : i ≠ j) (a d : α) :
    (l.set i a).getD j d = l.getD j d := by
  simp [List.getD_eq_getElem?_getD, List.getElem?_set_ne h]

theorem getD_append_left {α : Type _} (l1 l2 : List α) (i : Nat) (d : α)
    (h : i < l1.length) : (l1 ++ l2).getD i d = l1.getD i d := by
  simp [List.getD_eq_getElem?_getD, List.getElem?_append_left h]

theorem getD_append_length {α : Type _} (l : List α) (a d : α) :
    (l ++ [a]).getD l.length d = a := by
  simp [List.getD_eq_getElem?_getD, List.getElem?_concat_length]

theorem getD_mem {α : Type _} (l : List α) (i : Nat) (d : α) (h : i < l.length) :
    l.getD i d ∈ l := by
  rw [List.getD_eq_getElem?_getD, List.getElem?_eq_getElem h]
  exact List.getElem_mem h

theorem mapLookup_mapSet_self {K : Type} [DecidableEq K] {A : Type}
    (m : List (K × A)) (key : K) (v : A) : mapLookup (mapSet m key v) key = some v := by
  simp [mapLookup, mapSet]

/-! ## `keyIndexLookup` and `keyIndexCore` -/

theorem keyIndexLookup_eq_none {K : Type} [DecidableEq K] {key : K} :
    ∀ {keys : List K}, keyIndexLookup key keys = none ↔ key ∉ keys
  | [] => by simp [keyIndexLookup]
  | k :: rest => by
    by_cases hk : key = k
    · simp [keyIndexLookup, hk]
    · simp [keyIndexLookup, hk, @keyIndexLookup_eq_none K _ key rest]

theorem keyIndexLookup_some {K : Type} [DecidableEq K] (dk : K) :
    ∀ {keys : List K} {key : K} {i : Nat}, keyIndexLookup key keys = some i →
      i < keys.length ∧ keys.getD i dk = key
  | [], _, _, h => by simp [keyIndexLookup] at h
  | k :: rest, key, i, h => by
    by_cases hk : key = k
    · simp [keyIndexLookup, hk] at h
      subst hk
      simp [← h]
    · simp only [keyIndexLookup, hk, if_false, Option.map_eq_some'] at h
      obtain ⟨j, hj, rfl⟩ := h
      have ih := keyIndexLookup_some dk hj
      refine ⟨by simpa using ih.1, by simpa using ih.2⟩

/-- In the found case, `keyIndex` returns the existing index of the key and
changes nothing. -/
theorem keyIndexCore_mem {K V E : Type} [DecidableEq K] (n : Int) (b : Batch K V E)
    (key : K) (dk : K) (h : key ∈ b.keys) :
    ∃ i, keyIndexCore n b key = (i, b, false) ∧ i < b.keys.length ∧
      b.keys.getD i dk = key := by
  cases hl : keyIndexLookup key b.keys with
  | none => exact absurd h (keyIndexLookup_eq_none.mp hl)
  | some i =>
    refine ⟨i, ?_, (keyIndexLookup_some dk hl).1, (keyIndexLookup_some dk hl).2⟩
    simp [keyIndexCore, hl]

/-- In the not-found case, `keyIndex` appends the key and fires the capacity
branch exactly when the cap is nonzero, the new position reaches it, and the
batch was not already closing. -/
theorem keyIndexCore_not_mem {K V E : Type} [DecidableEq K] (n : Int) (b : Batch K V E)
    (key : K) (h : key ∉ b.keys) :
    keyIndexCore n b key =
      if n ≠ 0 ∧ (b.keys.length : Int) ≥ n - 1 then
        if b.closing then (b.keys.length, { b with keys := b.keys ++ [key] }, false)
        else (b.keys.length, { b with keys := b.keys ++ [key], closing := true }, true)
      else (b.keys.length, { b with keys := b.keys ++ [key] }, false) := by
  rw [keyIndexCore, keyIndexLookup_eq_none.mpr h]

/-- With `maxBatch = 0` the capacity branch of `keyIndex` never fires. -/
theorem keyIndexCore_zero_no_dispatch {K V E : Type} [DecidableEq K] (b : Batch K V E)
    (key : K) : (keyIndexCore (V := V) (E := E) 0 b key).2.2 = false := by
  by_cases h : key ∈ b.keys
  · obtain ⟨i, hi, -, -⟩ := keyIndexCore_mem 0 b key key h
    simp [hi]
  · simp [keyIndexCore_not_mem 0 b key h]

/-! ## C1: batch-wide error policy -/

/-- C1: if any position of the batch's errors is non-nil, every thunk of the
batch resolves to the non-nil aggregate of all non-nil errors (in batch
order), and the resolution leaves the cache untouched, whatever the thunk's
own position and key. -/
theorem resolveThunk_error_skips_cache {K V E : Type} [DecidableEq K]
    (b : Batch K V E) (pos : Nat) (key : K) (cache : List (K × Option V))
    (h : ∃ e ∈ b.error, e ≠ none) :
    (resolveThunk b pos key cache).2.1 = some (b.error.filterMap id) ∧
    b.error.filterMap id ≠ [] ∧
    (resolveThunk b pos key cache).2.2 = cache := by
  have hne : b.error.filterMap id ≠ [] := by
    obtain ⟨e, he, hnn⟩ := h
    cases e with
    | none => exact absurd rfl hnn
    | some x =>
      intro hcon
      have hx : x ∈ b.error.filterMap id := List.mem_filterMap.mpr ⟨some x, he, rfl⟩
      rw [hcon] at hx
      exact absurd hx (List.not_mem_nil x)
  have hie : (b.error.filterMap id).isEmpty = false := by
    simpa [List.isEmpty_iff] using hne
  refine ⟨?_, hne, ?_⟩ <;> simp [resolveThunk, hie]

/-- C1 witness: a batch whose second error slot is non-nil; the thunk at
position 0 (whose own slot held a valid value) gets the aggregate and does
not write the cache. -/
theorem resolveThunk_error_skips_cache_witness :
    (∃ e ∈ ([none, some "boom"] : List (Option String)), e ≠ none) ∧
    ((resolveThunk (K := Nat) (V := Nat)
        ⟨[1, 2], [some 10, none], [none, some "boom"], true, true, false⟩
        0 1 []).2.1 = some (([none, some "boom"] : List (Option String)).filterMap id) ∧
      ([none, some "boom"] : List (Option String)).filterMap id ≠ [] ∧
      (resolveThunk (K := Nat) (V := Nat)
        ⟨[1, 2], [some 10, none], [none, some "boom"], true, true, false⟩
        0 1 []).2.2 = []) :=
  ⟨by decide,
   resolveThunk_error_skips_cache
     ⟨[1, 2], [some 10, none], [none, some "boom"], true, true, false⟩ 0 1 []
     (by decide)⟩

/-! ## C5: cache hits -/

/-- C5: when the key is cached, `LoadThunk` returns the already-resolved
deferred holding the cached value (and its resolution yields that value with
nil error) and leaves the configuration — cache, current batch, batch list
and fetch log — completely unchanged, so a load of a cached key never
creates, joins or dispatches a batch. -/
theorem loadThunk_cache_hit {K V E : Type} [DecidableEq K] (c : Config K V E)
    (key : K) (v : Option V) (h : mapLookup c.cache key = some v) :
    loadThunkStep c key = (.cached v, c) ∧
    resolveCached (E := E) v = (v, none) := by
  constructor
  · simp [loadThunkStep, h]
  · rfl

/-- C5 witness: a loader whose cache holds key 1; loading it returns the
resolved deferred and the untouched configuration. -/
theorem loadThunk_cache_hit_witness :
    mapLookup ({ initConfig (fun ks => (ks.map some, ks.map (fun _ => none)))
        (2 : Int) with cache := [(1, some 5)] } : Config Nat Nat String).cache 1 =
      some (some 5) ∧
    (loadThunkStep ({ initConfig (fun ks => (ks.map some, ks.map (fun _ => none)))
        (2 : Int) with cache := [(1, some 5)] } : Config Nat Nat String) 1 =
      (.cached (some 5),
        { initConfig (fun ks => (ks.map some, ks.map (fun _ => none)))
            (2 : Int) with cache := [(1, some 5)] }) ∧
      resolveCached (E := String) (some 5) = (some 5, none)) :=
  ⟨rfl, loadThunk_cache_hit _ 1 (some 5) rfl⟩

/-! ## C9: short fetch results -/

/-- C9: resolving a thunk whose captured position lies beyond the length of
the values slice returned by the fetch collaborator yields the nil value —
the `pos < len(batch.data)` guard — rather than an out-of-bounds access. -/
theorem resolveThunk_short_data_nil {K V E : Type} [DecidableEq K]
    (b : Batch K V E) (pos : Nat) (key : K) (cache : List (K × Option V))
    (h : b.data.length ≤ pos) :
    (resolveThunk b pos key cache).1 = none := by
  rw [resolveThunk]
  simp only [Nat.not_lt.mpr h, if_false]
  split <;> rfl

/-- C9 witness: a two-key batch whose fetch returned a single value; the
caller at position 1 receives nil. -/
theorem resolveThunk_short_data_nil_witness :
    (([some 10] : List (Option Nat)).length ≤ 1) ∧
    (resolveThunk (K := Nat) (E := String)
      ⟨[1, 2], [some 10], [none, none], true, true, false⟩ 1 2 []).1 = none :=
  ⟨by decide,
   resolveThunk_short_data_nil ⟨[1, 2], [some 10], [none, none], true, true, false⟩
     1 2 [] (by decide)⟩

/-! ## C10: Prime with a nil value pointer -/

/-- C10: `Prime` on an uncached key unconditionally dereferences its value
pointer to build the defensive copy, so a nil value pointer makes it panic
(the `none` outcome) instead of returning a boolean. -/
theorem prime_nil_value_panics {K V : Type} [DecidableEq K] (s : PrimeState K V)
    (key : K) (h : mapLookup s.cache key = none) :
    prime s key none = none := by
  simp [prime, h]

/-- C10 witness: priming the uncached key 7 with a nil pointer panics. -/
theorem prime_nil_value_panics_witness :
    mapLookup (PrimeState.cache (K := Nat) (V := Nat) ⟨[5], []⟩) 7 = none ∧
    prime (PrimeState.mk (K := Nat) (V := Nat) [5] []) 7 none = none :=
  ⟨by decide, prime_nil_value_panics ⟨[5], []⟩ 7 (by decide)⟩

/-! ## C6: Prime stores a defensive copy -/

/-- C6: priming an uncached key dereferences the (valid) value pointer,
allocates a fresh cell holding the copied pointee, caches a pointer to that
fresh cell — distinct from the caller's pointer, so a later mutation through
the caller's reference leaves the cached entry unchanged — and returns
`true`; priming a cached key returns `false` and changes nothing. -/
theorem prime_defensive_copy {K V : Type} [DecidableEq K] (s : PrimeState K V)
    (key : K) (p : Nat) (hp : p < s.heap.length) :
    (mapLookup s.cache key = none →
      ∃ v : V, s.heap.get? p = some v ∧
        prime s key (some p) =
          some (true, ⟨s.heap ++ [v], mapSet s.cache key s.heap.length⟩) ∧
        mapLookup (mapSet s.cache key s.heap.length) key = some s.heap.length ∧
        s.heap.length ≠ p ∧
        (∀ v' : V,
          (heapWrite ⟨s.heap ++ [v], mapSet s.cache key s.heap.length⟩ p v').heap.get?
            s.heap.length = some v)) ∧
    ((mapLookup s.cache key).isSome → ∀ value : Option Nat,
      prime s key value = some (false, s)) := by
  constructor
  · intro habs
    refine ⟨s.heap.get ⟨p, hp⟩, List.get?_eq_get hp, ?_, mapLookup_mapSet_self _ _ _, ?_, ?_⟩
    · simp [prime, habs, List.getElem?_eq_getElem hp]
    · omega
    · intro v'
      have hne : p ≠ s.heap.length := by omega
      rw [heapWrite]
      rw [List.get?_eq_getElem?, List.getElem?_set_ne hne, List.getElem?_concat_length]
  · intro hfound value
    simp [prime, hfound]

/-- C6 witness: priming the uncached key 7 from pointer 0 allocates cell 1
for the copy; overwriting cell 0 afterwards leaves the cached cell intact.
(The second conjunct is vacuous here: the cache is empty.) -/
theorem prime_defensive_copy_witness :
    (0 < (PrimeState.heap (K := Nat) (V := Nat) ⟨[5], []⟩).length) ∧
    ((mapLookup (PrimeState.cache (K := Nat) (V := Nat) ⟨[5], []⟩) 7 = none →
      ∃ v : Nat, (PrimeState.heap (K := Nat) (V := Nat) ⟨[5], []⟩).get? 0 = some v ∧
        prime (PrimeState.mk (K := Nat) (V := Nat) [5] []) 7 (some 0) =
          some (true, ⟨[5] ++ [v], mapSet ([] : List (Nat × Nat)) 7 ([5] : List Nat).length⟩) ∧
        mapLookup (mapSet ([] : List (Nat × Nat)) 7 ([5] : List Nat).length) 7 =
          some ([5] : List Nat).length ∧
        ([5] : List Nat).length ≠ 0 ∧
        (∀ v' : Nat,
          (heapWrite ⟨[5] ++ [v], mapSet ([] : List (Nat × Nat)) 7 ([5] : List Nat).length⟩
            0 v').heap.get? ([5] : List Nat).length = some v)) ∧
    ((mapLookup (PrimeState.cache (K := Nat) (V := Nat) ⟨[5], []⟩) 7).isSome →
      ∀ value : Option Nat,
        prime (PrimeState.mk (K := Nat) (V := Nat) [5] []) 7 value = some (false, ⟨[5], []⟩))) :=
  ⟨by decide, prime_defensive_copy ⟨[5], []⟩ 7 0 (by decide)⟩

/-! ## Invariant preservation along the step relation -/

theorem inv_cache_only {K V E : Type} [DecidableEq K] {c c' : Config K V E}
    (inv : Inv c) (hb : c'.batches = c.batches) (hcur : c'.current = c.current)
    (hf : c'.fetchCalls = c.fetchCalls) (hm : c'.maxBatch = c.maxBatch) : Inv c' := by
  refine ⟨?_, ?_, ?_, ?_, ?_, ?_, ?_, ?_⟩ <;> simp only [hb, hcur, hf, hm]
  · exact inv.batchNodup
  · exact inv.batchNonempty
  · exact inv.openIsCurrent
  · exact inv.currentLt
  · exact inv.currentOpen
  · exact inv.currentSize
  · exact inv.callsNodup
  · exact inv.callsSize

theorem nodup_append_singleton {α : Type _} {l : List α} {a : α}
    (h1 : l.Nodup) (h2 : a ∉ l) : (l ++ [a]).Nodup := by
  simp [List.nodup_append, h1, h2]

theorem inv_load {K V E : Type} [DecidableEq K] {c : Config K V E} (key : K)
    (inv : Inv c) : Inv (loadThunkStep c key).2 := by
  cases hc : mapLookup c.cache key with
  | some v =>
    have : (loadThunkStep c key).2 = c := by simp [loadThunkStep, hc]
    rw [this]; exact inv
  | none =>
    cases hcur : c.current with
    | some bid =>
      have hbid : bid < c.batches.length := inv.currentLt bid hcur
      have hopen : (c.batches.getD bid default).closing = false := inv.currentOpen bid hcur
      by_cases hmem : key ∈ (c.batches.getD bid default).keys
      · -- key already in the current batch: keyIndex returns its index, appends nothing
        obtain ⟨i, hki, -, -⟩ :=
          keyIndexCore_mem c.maxBatch (c.batches.getD bid default) key key hmem
        have hstep : (loadThunkStep c key).2 =
            { c with batches := c.batches.set bid (c.batches.getD bid default),
                     current := some bid } := by
          simp only [List.getD_eq_getElem?_getD] at hki
          simp [loadThunkStep, hc, hcur, hki]
        rw [hstep]
        have hsame : ∀ j : Nat,
            (c.batches.set bid (c.batches.getD bid default)).getD j default =
              c.batches.getD j default := by
          intro j
          by_cases hj : bid = j
          · subst hj; exact getD_set_eq _ _ _ _ hbid
          · exact getD_set_ne _ hj _ _
        refine ⟨?_, ?_, ?_, ?_, ?_, ?_, ?_, ?_⟩ <;>
          simp only [List.length_set, hsame]
        · exact inv.batchNodup
        · exact inv.batchNonempty
        · intro j hj h1 h2
          rw [inv.openIsCurrent j hj h1 h2] at hcur
          simpa using hcur.symm
        · intro j hj
          simp only [Option.some.injEq] at hj
          subst hj; exact hbid
        · intro j hj
          simp only [Option.some.injEq] at hj
          subst hj; exact hopen
        · intro j hj hn
          simp only [Option.some.injEq] at hj
          subst hj; exact inv.currentSize bid hcur hn
        · exact inv.callsNodup
        · exact inv.callsSize
      · -- key not in the current batch: it is appended
        have hki := keyIndexCore_not_mem c.maxBatch (c.batches.getD bid default) key hmem
        rw [hopen] at hki
        by_cases hcond : c.maxBatch ≠ 0 ∧
            ((c.batches.getD bid default).keys.length : Int) ≥ c.maxBatch - 1
        · -- the attachment fills the batch: close, detach, dispatch
          rw [if_pos hcond, if_neg (by simp)] at hki
          have hstep : (loadThunkStep c key).2 =
              { c with
                  batches := c.batches.set bid (endBatch c.fetch
                    { c.batches.getD bid default with
                        keys := (c.batches.getD bid default).keys ++ [key],
                        closing := true }),
                  current := none,
                  fetchCalls := c.fetchCalls ++
                    [(c.batches.getD bid default).keys ++ [key]] } := by
            simp only [List.getD_eq_getElem?_getD] at hki
            simp [loadThunkStep, hc, hcur, hki]
          rw [hstep]
          refine ⟨?_, ?_, ?_, ?_, ?_, ?_, ?_, ?_⟩
          · intro j hj
            simp only [List.length_set] at hj
            by_cases hbj : bid = j
            · subst hbj
              rw [getD_set_eq _ _ _ _ hbid]
              exact nodup_append_singleton (inv.batchNodup bid hbid) hmem
            · rw [getD_set_ne _ hbj]; exact inv.batchNodup j hj
          · intro j hj
            simp only [List.length_set] at hj
            by_cases hbj : bid = j
            · subst hbj; rw [getD_set_eq _ _ _ _ hbid]; simp [endBatch]
            · rw [getD_set_ne _ hbj]; exact inv.batchNonempty j hj
          · intro j hj h1 h2
            simp only [List.length_set] at hj
            by_cases hbj : bid = j
            · subst hbj
              rw [getD_set_eq _ _ _ _ hbid] at h1
              simp [endBatch] at h1
            · rw [getD_set_ne _ hbj] at h1 h2
              rw [inv.openIsCurrent j hj h1 h2] at hcur
              exact absurd hcur.symm (by simpa using hbj)
          · intro j hj; simp at hj
          · intro j hj; simp at hj
          · intro j hj; simp at hj
          · intro ks hks
            rcases List.mem_append.mp hks with h | h
            · exact inv.callsNodup ks h
            · simp only [List.mem_singleton] at h
              subst h
              exact nodup_append_singleton (inv.batchNodup bid hbid) hmem
          · intro ks hks hn
            rcases List.mem_append.mp hks with h | h
            · exact inv.callsSize ks h hn
            · simp only [List.mem_singleton] at h
              subst h
              replace hn : 0 < c.maxBatch := hn
              have hsz := inv.currentSize bid hcur hn
              show (((c.batches.getD bid default).keys ++ [key]).length : Int) ≤ c.maxBatch
              simp only [List.length_append, List.length_singleton]
              push_cast
              push_cast at hsz
              omega
        · -- the batch stays open: key appended, nothing dispatched
          rw [if_neg hcond] at hki
          have hstep : (loadThunkStep c key).2 =
              { c with
                  batches := c.batches.set bid
                    { c.batches.getD bid default with
                        keys := (c.batches.getD bid default).keys ++ [key] },
                  current := some bid } := by
            have hopen2 := hopen
            simp only [List.getD_eq_getElem?_getD] at hki hopen2
            simp [loadThunkStep, hc, hcur, hki, hopen2]
          rw [hstep]
          refine ⟨?_, ?_, ?_, ?_, ?_, ?_, ?_, ?_⟩
          · intro j hj
            simp only [List.length_set] at hj
            by_cases hbj : bid = j
            · subst hbj
              rw [getD_set_eq _ _ _ _ hbid]
              exact nodup_append_singleton (inv.batchNodup bid hbid) hmem
            · rw [getD_set_ne _ hbj]; exact inv.batchNodup j hj
          · intro j hj
            simp only [List.length_set] at hj
            by_cases hbj : bid = j
            · subst hbj; rw [getD_set_eq _ _ _ _ hbid]; simp
            · rw [getD_set_ne _ hbj]; exact inv.batchNonempty j hj
          · intro j hj h1 h2
            simp only [List.length_set] at hj
            by_cases hbj : bid = j
            · subst hbj; rfl
            · rw [getD_set_ne _ hbj] at h1 h2
              rw [inv.openIsCurrent j hj h1 h2] at hcur
              exact absurd hcur.symm (by simpa using hbj)
          · intro j hj
            simp only [Option.some.injEq] at hj
            subst hj; simpa using hbid
          · intro j hj
            simp only [Option.some.injEq] at hj
            subst hj
            rw [getD_set_eq _ _ _ _ hbid]
            exact hopen
          · intro j hj hn
            simp only [Option.some.injEq] at hj
            subst hj
            rw [getD_set_eq _ _ _ _ hbid]
            replace hn : 0 < c.maxBatch := hn
            have hlt : ¬ (((c.batches.getD bid default).keys.length : Int) ≥ c.maxBatch - 1) := by
              intro hge
              exact hcond ⟨by omega, hge⟩
            show (((c.batches.getD bid default).keys ++ [key]).length : Int) ≤ c.maxBatch - 1
            simp only [List.length_append, List.length_singleton]
            push_cast
            push_cast at hlt
            omega
          · exact inv.callsNodup
          · exact inv.callsSize
    | none =>
      -- no current batch: a fresh one is created and the key attached to it
      have hfresh : (c.batches ++ [freshBatch]).getD c.batches.length default
          = (freshBatch : Batch K V E) := getD_append_length _ _ _
      have hmem : key ∉ (freshBatch : Batch K V E).keys := by simp [freshBatch]
      have hki := keyIndexCore_not_mem c.maxBatch (freshBatch : Batch K V E) key hmem
      have hlen0 : (freshBatch : Batch K V E).keys.length = 0 := rfl
      by_cases hcond : c.maxBatch ≠ 0 ∧
          (((freshBatch : Batch K V E).keys.length : Int) ≥ c.maxBatch - 1)
      · rw [if_pos hcond, if_neg (by simp [freshBatch])] at hki
        have hstep : (loadThunkStep c key).2 =
            { c with
                batches := (c.batches ++ [freshBatch]).set c.batches.length
                  (endBatch c.fetch
                    { keys := [key], data := [], error := [], closing := true,
                      done := false, timerFired := false }),
                current := none,
                fetchCalls := c.fetchCalls ++ [[key]] } := by
          simp only [List.getD_eq_getElem?_getD] at hki hfresh
          simp only [freshBatch] at hki
          simp [loadThunkStep, hc, hcur, hfresh, hki, freshBatch]
        rw [hstep]
        refine ⟨?_, ?_, ?_, ?_, ?_, ?_, ?_, ?_⟩
        · intro j hj
          simp only [List.length_set, List.length_append, List.length_singleton] at hj
          by_cases hbj : c.batches.length = j
          · subst hbj
            rw [getD_set_eq _ _ _ _ (by simp)]
            simp [endBatch, freshBatch]
          · have hjlt : j < c.batches.length := by omega
            rw [getD_set_ne _ hbj, getD_append_left _ _ _ _ hjlt]
            exact inv.batchNodup j hjlt
        · intro j hj
          simp only [List.length_set, List.length_append, List.length_singleton] at hj
          by_cases hbj : c.batches.length = j
          · subst hbj
            rw [getD_set_eq _ _ _ _ (by simp)]
            simp [endBatch, freshBatch]
          · have hjlt : j < c.batches.length := by omega
            rw [getD_set_ne _ hbj, getD_append_left _ _ _ _ hjlt]
            exact inv.batchNonempty j hjlt
        · intro j hj h1 h2
          simp only [List.length_set, List.length_append, List.length_singleton] at hj
          by_cases hbj : c.batches.length = j
          · subst hbj
            rw [getD_set_eq _ _ _ _ (by simp)] at h1
            simp [endBatch, freshBatch] at h1
          · have hjlt : j < c.batches.length := by omega
            rw [getD_set_ne _ hbj, getD_append_left _ _ _ _ hjlt] at h1 h2
            rw [inv.openIsCurrent j hjlt h1 h2] at hcur
            exact absurd hcur (by simp)
        · intro j hj; simp at hj
        · intro j hj; simp at hj
        · intro j hj; simp at hj
        · intro ks hks
          rcases List.mem_append.mp hks with h | h
          · exact inv.callsNodup ks h
          · simp only [List.mem_singleton] at h
            subst h; simp
        · intro ks hks hn
          rcases List.mem_append.mp hks with h | h
          · exact inv.callsSize ks h hn
          · simp only [List.mem_singleton] at h
            subst h
            replace hn : 0 < c.maxBatch := hn
            show (([key] : List K).length : Int) ≤ c.maxBatch
            simp only [List.length_singleton]
            omega
      · rw [if_neg hcond] at hki
        have hstep : (loadThunkStep c key).2 =
            { c with
                batches := (c.batches ++ [freshBatch]).set c.batches.length
                  ({ keys := [key], data := [], error := [], closing := false,
                     done := false, timerFired := false } : Batch K V E),
                current := some c.batches.length } := by
          simp only [List.getD_eq_getElem?_getD] at hki hfresh
          simp only [freshBatch] at hki
          simp [loadThunkStep, hc, hcur, hfresh, hki, freshBatch]
        rw [hstep]
        refine ⟨?_, ?_, ?_, ?_, ?_, ?_, ?_, ?_⟩
        · intro j hj
          simp only [List.length_set, List.length_append, List.length_singleton] at hj
          by_cases hbj : c.batches.length = j
          · subst hbj
            rw [getD_set_eq _ _ _ _ (by simp)]
            simp [freshBatch]
          · have hjlt : j < c.batches.length := by omega
            rw [getD_set_ne _ hbj, getD_append_left _ _ _ _ hjlt]
            exact inv.batchNodup j hjlt
        · intro j hj
          simp only [List.length_set, List.length_append, List.length_singleton] at hj
          by_cases hbj : c.batches.length = j
          · subst hbj
            rw [getD_set_eq _ _ _ _ (by simp)]
            simp [freshBatch]
          · have hjlt : j < c.batches.length := by omega
            rw [getD_set_ne _ hbj, getD_append_left _ _ _ _ hjlt]
            exact inv.batchNonempty j hjlt
        · intro j hj h1 h2
          simp only [List.length_set, List.length_append, List.length_singleton] at hj
          by_cases hbj : c.batches.length = j
          · subst hbj; rfl
          · have hjlt : j < c.batches.length := by omega
            rw [getD_set_ne _ hbj, getD_append_left _ _ _ _ hjlt] at h1 h2
            rw [inv.openIsCurrent j hjlt h1 h2] at hcur
            exact absurd hcur (by simp)
        · intro j hj
          simp only [Option.some.injEq] at hj
          subst hj; simp
        · intro j hj
          simp only [Option.some.injEq] at hj
          subst hj
          rw [getD_set_eq _ _ _ _ (by simp)]
        · intro j hj hn
          simp only [Option.some.injEq] at hj
          subst hj
          rw [getD_set_eq _ _ _ _ (by simp)]
          replace hn : 0 < c.maxBatch := hn
          rw [hlen0] at hcond
          have hng : ¬ ((0 : Int) ≥ c.maxBatch - 1) := by
            intro hge
            refine hcond ⟨by omega, by simpa using hge⟩
          show (([key] : List K).length : Int) ≤ c.maxBatch - 1
          simp only [List.length_singleton]
          omega
        · exact inv.callsNodup
        · exact inv.callsSize
theorem inv_timer {K V E : Type} [DecidableEq K] {c : Config K V E} (bid : Nat)
    (h : bid < c.batches.length)
    (hf : (c.batches.getD bid default).timerFired = false) (inv : Inv c) :
    Inv (timerFireStep c bid) := by
  by_cases hclos : (c.batches.getD bid default).closing = true
  · -- capacity branch already closed this batch: the timer only returns
    have hstep : timerFireStep c bid =
        { c with
            batches := c.batches.set bid
              ({ c.batches.getD bid default with timerFired := true }) } := by
      rw [timerFireStep]
      rw [if_pos hclos]
    rw [hstep]
    refine ⟨?_, ?_, ?_, ?_, ?_, ?_, ?_, ?_⟩
    · intro j hj
      simp only [List.length_set] at hj
      by_cases hbj : bid = j
      · subst hbj; rw [getD_set_eq _ _ _ _ h]; exact inv.batchNodup bid hj
      · rw [getD_set_ne _ hbj]; exact inv.batchNodup j hj
    · intro j hj
      simp only [List.length_set] at hj
      by_cases hbj : bid = j
      · subst hbj; rw [getD_set_eq _ _ _ _ h]; exact inv.batchNonempty bid hj
      · rw [getD_set_ne _ hbj]; exact inv.batchNonempty j hj
    · intro j hj h1 h2
      simp only [List.length_set] at hj
      by_cases hbj : bid = j
      · subst hbj
        rw [getD_set_eq _ _ _ _ h] at h1
        simp only at h1
        exact absurd h1 (by simpa using hclos)
      · rw [getD_set_ne _ hbj] at h1 h2
        exact inv.openIsCurrent j hj h1 h2
    · intro j hj
      simpa using inv.currentLt j hj
    · intro j hj
      by_cases hbj : bid = j
      · subst hbj
        exact absurd (inv.currentOpen bid hj) (by simpa using hclos)
      · rw [getD_set_ne _ hbj]; exact inv.currentOpen j hj
    · intro j hj hn
      by_cases hbj : bid = j
      · subst hbj
        exact absurd (inv.currentOpen bid hj) (by simpa using hclos)
      · rw [getD_set_ne _ hbj]
        exact inv.currentSize j hj hn
    · exact inv.callsNodup
    · exact inv.callsSize
  · -- the batch is still open, hence current: flush it
    have hclosf : (c.batches.getD bid default).closing = false := by
      simpa using hclos
    have hcur : c.current = some bid := inv.openIsCurrent bid h hclosf hf
    have hstep : timerFireStep c bid =
        { c with
            current := none,
            batches := c.batches.set bid
              ({ endBatch c.fetch (c.batches.getD bid default) with timerFired := true }),
            fetchCalls := c.fetchCalls ++ [(c.batches.getD bid default).keys] } := by
      rw [timerFireStep]
      rw [if_neg (by simpa using hclosf)]
    rw [hstep]
    refine ⟨?_, ?_, ?_, ?_, ?_, ?_, ?_, ?_⟩
    · intro j hj
      simp only [List.length_set] at hj
      by_cases hbj : bid = j
      · subst hbj
        rw [getD_set_eq _ _ _ _ h]
        simpa [endBatch] using inv.batchNodup bid hj
      · rw [getD_set_ne _ hbj]; exact inv.batchNodup j hj
    · intro j hj
      simp only [List.length_set] at hj
      by_cases hbj : bid = j
      · subst hbj
        rw [getD_set_eq _ _ _ _ h]
        simpa [endBatch] using inv.batchNonempty bid hj
      · rw [getD_set_ne _ hbj]; exact inv.batchNonempty j hj
    · intro j hj h1 h2
      simp only [List.length_set] at hj
      by_cases hbj : bid = j
      · subst hbj
        rw [getD_set_eq _ _ _ _ h] at h2
        simp at h2
      · rw [getD_set_ne _ hbj] at h1 h2
        rw [inv.openIsCurrent j hj h1 h2] at hcur
        exact absurd hcur.symm (by simpa using hbj)
    · intro j hj; simp at hj
    · intro j hj; simp at hj
    · intro j hj; simp at hj
    · intro ks hks
      rcases List.mem_append.mp hks with h' | h'
      · exact inv.callsNodup ks h'
      · simp only [List.mem_singleton] at h'
        subst h'
        exact inv.batchNodup bid h
    · intro ks hks hn
      rcases List.mem_append.mp hks with h' | h'
      · exact inv.callsSize ks h' hn
      · simp only [List.mem_singleton] at h'
        subst h'
        replace hn : 0 < c.maxBatch := hn
        have hsz := inv.currentSize bid hcur hn
        show (((c.batches.getD bid default).keys).length : Int) ≤ c.maxBatch
        omega

theorem inv_step {K V E : Type} [DecidableEq K] {c c' : Config K V E}
    (inv : Inv c) (hs : Step c c') : Inv c' := by
  cases hs with
  | load key => exact inv_load key inv
  | timer bid h hf => exact inv_timer bid h hf inv
  | clear key => exact inv_cache_only inv rfl rfl rfl rfl
  | prime key v =>
    refine inv_cache_only inv ?_ ?_ ?_ ?_ <;> rw [primeStep] <;> split <;> rfl
  | resolve bid pos key hd => exact inv_cache_only inv rfl rfl rfl rfl

theorem inv_init {K V E : Type} [DecidableEq K]
    (fetch : List K → List (Option V) × List (Option E)) (maxBatch : Int) :
    Inv (initConfig fetch maxBatch) := by
  refine ⟨?_, ?_, ?_, ?_, ?_, ?_, ?_, ?_⟩ <;> simp [initConfig]

theorem reachable_inv {K V E : Type} [DecidableEq K]
    {fetch : List K → List (Option V) × List (Option E)} {maxBatch : Int}
    {c : Config K V E} (hr : Reachable fetch maxBatch c) : Inv c := by
  induction hr with
  | refl => exact inv_init fetch maxBatch
  | tail _ hs ih => exact inv_step ih hs

theorem step_maxBatch {K V E : Type} [DecidableEq K] {c c' : Config K V E}
    (hs : Step c c') : c'.maxBatch = c.maxBatch := by
  cases hs with
  | load key =>
    simp only [loadThunkStep]
    repeat' split
    all_goals rfl
  | timer bid h hf =>
    rw [timerFireStep]
    split <;> rfl
  | clear key => rfl
  | prime key v =>
    rw [primeStep]
    split <;> rfl
  | resolve bid pos key hd => rfl

theorem reachable_maxBatch {K V E : Type} [DecidableEq K]
    {fetch : List K → List (Option V) × List (Option E)} {maxBatch : Int}
    {c : Config K V E} (hr : Reachable fetch maxBatch c) : c.maxBatch = maxBatch := by
  induction hr with
  | refl => rfl
  | tail _ hs ih => rw [step_maxBatch hs, ih]

/-- The thunk handed out when no batch is current and the key is uncached:
it captures the freshly created batch (the next index) at position 0. -/
theorem loadThunkStep_fresh_thunk {K V E : Type} [DecidableEq K] {c : Config K V E}
    {key : K} (hc : mapLookup c.cache key = none) (hcur : c.current = none) :
    (loadThunkStep c key).1 = .pending c.batches.length 0 key := by
  have hfresh : (c.batches ++ [freshBatch]).getD c.batches.length default
      = (freshBatch : Batch K V E) := getD_append_length _ _ _
  have h1 : (keyIndexCore c.maxBatch (freshBatch : Batch K V E) key).1 = 0 := by
    rw [keyIndexCore_not_mem c.maxBatch freshBatch key (by simp [freshBatch])]
    by_cases hcond : c.maxBatch ≠ 0 ∧
        (((freshBatch : Batch K V E).keys.length : Int) ≥ c.maxBatch - 1)
    · rw [if_pos hcond, if_neg (by simp [freshBatch])]
      rfl
    · rw [if_neg hcond]
      rfl
  simp only [List.getD_eq_getElem?_getD] at hfresh h1
  simp [loadThunkStep, hc, hcur, hfresh]
  split <;> simp [h1]

/-! ## C2: capacity-triggered batch closing -/

/-- C2: with a positive cap `n`, (i) attaching an uncached, non-duplicate
key that brings the current batch's key count to `n` detaches the batch
(`current` becomes `none`), dispatches the fetch (the fetch log grows by
exactly that batch's key list) and leaves the batch closing and done;
(ii) every key list ever passed to the fetch collaborator has at most `n`
keys; (iii) once no batch is current, an uncached key is attached to a
freshly created batch at position 0; and (iv) with cap 0 the capacity
branch of `keyIndex` never fires, so only the timer path closes batches. -/
theorem capacity_close_policy {K V E : Type} [DecidableEq K]
    (fetch : List K → List (Option V) × List (Option E)) (n : Int)
    (c : Config K V E) (hn : 0 < n) (hr : Reachable fetch n c) :
    (∀ bid : Nat, ∀ key : K, c.current = some bid →
      mapLookup c.cache key = none →
      key ∉ (c.batches.getD bid default).keys →
      ((c.batches.getD bid default).keys.length : Int) + 1 = n →
      (loadThunkStep c key).2.current = none ∧
      (loadThunkStep c key).2.fetchCalls =
        c.fetchCalls ++ [(c.batches.getD bid default).keys ++ [key]] ∧
      ((loadThunkStep c key).2.batches.getD bid default).closing = true ∧
      ((loadThunkStep c key).2.batches.getD bid default).done = true) ∧
    (∀ ks ∈ c.fetchCalls, (ks.length : Int) ≤ n) ∧
    (∀ key : K, c.current = none → mapLookup c.cache key = none →
      (loadThunkStep c key).1 = .pending c.batches.length 0 key) ∧
    (∀ b : Batch K V E, ∀ key : K, (keyIndexCore 0 b key).2.2 = false) := by
  have inv := reachable_inv hr
  have hm := reachable_maxBatch hr
  refine ⟨?_, ?_, ?_, ?_⟩
  · intro bid key hcur hc hmem hfill
    have hbid : bid < c.batches.length := inv.currentLt bid hcur
    have hopen : (c.batches.getD bid default).closing = false := inv.currentOpen bid hcur
    have hki := keyIndexCore_not_mem c.maxBatch (c.batches.getD bid default) key hmem
    rw [hopen] at hki
    have hcond : c.maxBatch ≠ 0 ∧
        ((c.batches.getD bid default).keys.length : Int) ≥ c.maxBatch - 1 := by
      rw [hm]
      exact ⟨by omega, by omega⟩
    rw [if_pos hcond, if_neg (by simp)] at hki
    have hstep : (loadThunkStep c key).2 =
        { c with
            batches := c.batches.set bid (endBatch c.fetch
              { c.batches.getD bid default with
                  keys := (c.batches.getD bid default).keys ++ [key],
                  closing := true }),
            current := none,
            fetchCalls := c.fetchCalls ++
              [(c.batches.getD bid default).keys ++ [key]] } := by
      simp only [List.getD_eq_getElem?_getD] at hki
      simp [loadThunkStep, hc, hcur, hki]
    rw [hstep]
    refine ⟨rfl, rfl, ?_, ?_⟩
    · show ((c.batches.set bid _).getD bid default).closing = true
      rw [getD_set_eq _ _ _ _ hbid]
      simp [endBatch]
    · show ((c.batches.set bid _).getD bid default).done = true
      rw [getD_set_eq _ _ _ _ hbid]
      simp [endBatch]
  · intro ks hks
    have h2 := inv.callsSize ks hks (by rw [hm]; exact hn)
    rw [hm] at h2
    exact h2
  · intro key hcur hc
    exact loadThunkStep_fresh_thunk hc hcur
  · intro b key
    exact keyIndexCore_zero_no_dispatch b key

/-- C2 witness: cap 2, after loading key 1 the current batch holds `[1]`;
loading key 2 fills, detaches and dispatches it, fetch calls stay within the
cap, and a further uncached key starts batch 1 at position 0. -/
theorem capacity_close_policy_witness :
    (∀ bid : Nat, ∀ key : Nat,
      ((loadThunkStep (initConfig (K := Nat) (V := Nat) (E := String)
          (fun ks => (ks.map some, ks.map (fun _ => none))) 2) 1).2).current = some bid →
      mapLookup ((loadThunkStep (initConfig (K := Nat) (V := Nat) (E := String)
          (fun ks => (ks.map some, ks.map (fun _ => none))) 2) 1).2).cache key = none →
      key ∉ (((loadThunkStep (initConfig (K := Nat) (V := Nat) (E := String)
          (fun ks => (ks.map some, ks.map (fun _ => none))) 2) 1).2).batches.getD bid
            default).keys →
      ((((loadThunkStep (initConfig (K := Nat) (V := Nat) (E := String)
          (fun ks => (ks.map some, ks.map (fun _ => none))) 2) 1).2).batches.getD bid
            default).keys.length : Int) + 1 = 2 →
      (loadThunkStep ((loadThunkStep (initConfig (K := Nat) (V := Nat) (E := String)
          (fun ks => (ks.map some, ks.map (fun _ => none))) 2) 1).2) key).2.current = none ∧
      (loadThunkStep ((loadThunkStep (initConfig (K := Nat) (V := Nat) (E := String)
          (fun ks => (ks.map some, ks.map (fun _ => none))) 2) 1).2) key).2.fetchCalls =
        ((loadThunkStep (initConfig (K := Nat) (V := Nat) (E := String)
          (fun ks => (ks.map some, ks.map (fun _ => none))) 2) 1).2).fetchCalls ++
          [(((loadThunkStep (initConfig (K := Nat) (V := Nat) (E := String)
            (fun ks => (ks.map some, ks.map (fun _ => none))) 2) 1).2).batches.getD bid
              default).keys ++ [key]] ∧
      ((loadThunkStep ((loadThunkStep (initConfig (K := Nat) (V := Nat) (E := String)
          (fun ks => (ks.map some, ks.map (fun _ => none))) 2) 1).2) key).2.batches.getD bid
            default).closing = true ∧
      ((loadThunkStep ((loadThunkStep (initConfig (K := Nat) (V := Nat) (E := String)
          (fun ks => (ks.map some, ks.map (fun _ => none))) 2) 1).2) key).2.batches.getD bid
            default).done = true) ∧
    (∀ ks ∈ ((loadThunkStep (initConfig (K := Nat) (V := Nat) (E := String)
        (fun ks => (ks.map some, ks.map (fun _ => none))) 2) 1).2).fetchCalls,
      (ks.length : Int) ≤ 2) ∧
    (∀ key : Nat,
      ((loadThunkStep (initConfig (K := Nat) (V := Nat) (E := String)
          (fun ks => (ks.map some, ks.map (fun _ => none))) 2) 1).2).current = none →
      mapLookup ((loadThunkStep (initConfig (K := Nat) (V := Nat) (E := String)
          (fun ks => (ks.map some, ks.map (fun _ => none))) 2) 1).2).cache key = none →
      (loadThunkStep ((loadThunkStep (initConfig (K := Nat) (V := Nat) (E := String)
          (fun ks => (ks.map some, ks.map (fun _ => none))) 2) 1).2) key).1 =
        .pending ((loadThunkStep (initConfig (K := Nat) (V := Nat) (E := String)
          (fun ks => (ks.map some, ks.map (fun _ => none))) 2) 1).2).batches.length 0 key) ∧
    (∀ b : Batch Nat Nat String, ∀ key : Nat, (keyIndexCore 0 b key).2.2 = false) :=
  capacity_close_policy (fun ks => (ks.map some, ks.map (fun _ => none))) 2
    (loadThunkStep (initConfig (fun ks => (ks.map some, ks.map (fun _ => none))) 2) 1).2
    (by norm_num)
    (Relation.ReflTransGen.single
      (Step.load (initConfig (fun ks => (ks.map some, ks.map (fun _ => none))) 2) 1))

/-! ## C4: batch keys are distinct, append-only, deduplicated -/

/-- C4: (i) loading an uncached key already present in the current batch
returns a thunk capturing the key's existing index, without appending and
without dispatching anything; (ii) loading an uncached key not present
appends it at the end of the batch's key list; (iii) every batch's key list
is pairwise distinct; (iv) every key list passed to a fetch invocation is
duplicate-free. -/
theorem batch_keys_distinct {K V E : Type} [DecidableEq K]
    (fetch : List K → List (Option V) × List (Option E)) (n : Int)
    (c : Config K V E) (hr : Reachable fetch n c) :
    (∀ bid : Nat, ∀ key dk : K, c.current = some bid →
      mapLookup c.cache key = none →
      key ∈ (c.batches.getD bid default).keys →
      ∃ i, (loadThunkStep c key).1 = .pending bid i key ∧
        i < (c.batches.getD bid default).keys.length ∧
        (c.batches.getD bid default).keys.getD i dk = key ∧
        (loadThunkStep c key).2.batches.getD bid default = c.batches.getD bid default ∧
        (loadThunkStep c key).2.fetchCalls = c.fetchCalls) ∧
    (∀ bid : Nat, ∀ key : K, c.current = some bid →
      mapLookup c.cache key = none →
      key ∉ (c.batches.getD bid default).keys →
      ((loadThunkStep c key).2.batches.getD bid default).keys =
        (c.batches.getD bid default).keys ++ [key]) ∧
    (∀ bid, bid < c.batches.length → (c.batches.getD bid default).keys.Nodup) ∧
    (∀ ks ∈ c.fetchCalls, ks.Nodup) := by
  have inv := reachable_inv hr
  refine ⟨?_, ?_, inv.batchNodup, inv.callsNodup⟩
  · intro bid key dk hcur hc hmem
    have hbid : bid < c.batches.length := inv.currentLt bid hcur
    obtain ⟨i, hki, hlt, hgd⟩ :=
      keyIndexCore_mem c.maxBatch (c.batches.getD bid default) key dk hmem
    have hstep : loadThunkStep c key =
        (.pending bid i key,
          { c with batches := c.batches.set bid (c.batches.getD bid default),
                   current := some bid }) := by
      simp only [List.getD_eq_getElem?_getD] at hki
      simp [loadThunkStep, hc, hcur, hki]
    refine ⟨i, by rw [hstep], hlt, hgd, ?_, by rw [hstep]⟩
    rw [hstep]
    show (c.batches.set bid _).getD bid default = _
    rw [getD_set_eq _ _ _ _ hbid]
  · intro bid key hcur hc hmem
    have hbid : bid < c.batches.length := inv.currentLt bid hcur
    have hopen : (c.batches.getD bid default).closing = false := inv.currentOpen bid hcur
    have hki := keyIndexCore_not_mem c.maxBatch (c.batches.getD bid default) key hmem
    rw [hopen] at hki
    by_cases hcond : c.maxBatch ≠ 0 ∧
        ((c.batches.getD bid default).keys.length : Int) ≥ c.maxBatch - 1
    · rw [if_pos hcond, if_neg (by simp)] at hki
      have hstep : (loadThunkStep c key).2 =
          { c with
              batches := c.batches.set bid (endBatch c.fetch
                { c.batches.getD bid default with
                    keys := (c.batches.getD bid default).keys ++ [key],
                    closing := true }),
              current := none,
              fetchCalls := c.fetchCalls ++
                [(c.batches.getD bid default).keys ++ [key]] } := by
        simp only [List.getD_eq_getElem?_getD] at hki
        simp [loadThunkStep, hc, hcur, hki]
      rw [hstep]
      show ((c.batches.set bid _).getD bid default).keys = _
      rw [getD_set_eq _ _ _ _ hbid]
      simp [endBatch]
    · rw [if_neg hcond] at hki
      have hstep : (loadThunkStep c key).2 =
          { c with
              batches := c.batches.set bid
                { c.batches.getD bid default with
                    keys := (c.batches.getD bid default).keys ++ [key] },
              current := some bid } := by
        have hopen2 := hopen
        simp only [List.getD_eq_getElem?_getD] at hki hopen2
        simp [loadThunkStep, hc, hcur, hki, hopen2]
      rw [hstep]
      show ((c.batches.set bid _).getD bid default).keys = _
      rw [getD_set_eq _ _ _ _ hbid]

/-- C4 witness: with the batch `[1]` current, re-loading key 1 reuses
index 0 and appends nothing; loading key 3 appends it; all batches and all
fetch calls of this reachable configuration are duplicate-free. -/
theorem batch_keys_distinct_witness :
    (∀ bid : Nat, ∀ key dk : Nat,
      ((loadThunkStep (initConfig (K := Nat) (V := Nat) (E := String)
          (fun ks => (ks.map some, ks.map (fun _ => none))) 0) 1).2).current = some bid →
      mapLookup ((loadThunkStep (initConfig (K := Nat) (V := Nat) (E := String)
          (fun ks => (ks.map some, ks.map (fun _ => none))) 0) 1).2).cache key = none →
      key ∈ (((loadThunkStep (initConfig (K := Nat) (V := Nat) (E := String)
          (fun ks => (ks.map some, ks.map (fun _ => none))) 0) 1).2).batches.getD bid
            default).keys →
      ∃ i, (loadThunkStep ((loadThunkStep (initConfig (K := Nat) (V := Nat) (E := String)
          (fun ks => (ks.map some, ks.map (fun _ => none))) 0) 1).2) key).1 =
            .pending bid i key ∧
        i < (((loadThunkStep (initConfig (K := Nat) (V := Nat) (E := String)
          (fun ks => (ks.map some, ks.map (fun _ => none))) 0) 1).2).batches.getD bid
            default).keys.length ∧
        (((loadThunkStep (initConfig (K := Nat) (V := Nat) (E := String)
          (fun ks => (ks.map some, ks.map (fun _ => none))) 0) 1).2).batches.getD bid
            default).keys.getD i dk = key ∧
        (loadThunkStep ((loadThunkStep (initConfig (K := Nat) (V := Nat) (E := String)
          (fun ks => (ks.map some, ks.map (fun _ => none))) 0) 1).2) key).2.batches.getD bid
            default =
          ((loadThunkStep (initConfig (K := Nat) (V := Nat) (E := String)
          (fun ks => (ks.map some, ks.map (fun _ => none))) 0) 1).2).batches.getD bid
            default ∧
        (loadThunkStep ((loadThunkStep (initConfig (K := Nat) (V := Nat) (E := String)
          (fun ks => (ks.map some, ks.map (fun _ => none))) 0) 1).2) key).2.fetchCalls =
          ((loadThunkStep (initConfig (K := Nat) (V := Nat) (E := String)
          (fun ks => (ks.map some, ks.map (fun _ => none))) 0) 1).2).fetchCalls) ∧
    (∀ bid : Nat, ∀ key : Nat,
      ((loadThunkStep (initConfig (K := Nat) (V := Nat) (E := String)
          (fun ks => (ks.map some, ks.map (fun _ => none))) 0) 1).2).current = some bid →
      mapLookup ((loadThunkStep (initConfig (K := Nat) (V := Nat) (E := String)
          (fun ks => (ks.map some, ks.map (fun _ => none))) 0) 1).2).cache key = none →
      key ∉ (((loadThunkStep (initConfig (K := Nat) (V := Nat) (E := String)
          (fun ks => (ks.map some, ks.map (fun _ => none))) 0) 1).2).batches.getD bid
            default).keys →
      ((loadThunkStep ((loadThunkStep (initConfig (K := Nat) (V := Nat) (E := String)
          (fun ks => (ks.map some, ks.map (fun _ => none))) 0) 1).2) key).2.batches.getD bid
            default).keys =
        (((loadThunkStep (initConfig (K := Nat) (V := Nat) (E := String)
          (fun ks => (ks.map some, ks.map (fun _ => none))) 0) 1).2).batches.getD bid
            default).keys ++ [key]) ∧
    (∀ bid, bid < ((loadThunkStep (initConfig (K := Nat) (V := Nat) (E := String)
        (fun ks => (ks.map some, ks.map (fun _ => none))) 0) 1).2).batches.length →
      (((loadThunkStep (initConfig (K := Nat) (V := Nat) (E := String)
        (fun ks => (ks.map some, ks.map (fun _ => none))) 0) 1).2).batches.getD bid
          default).keys.Nodup) ∧
    (∀ ks ∈ ((loadThunkStep (initConfig (K := Nat) (V := Nat) (E := String)
        (fun ks => (ks.map some, ks.map (fun _ => none))) 0) 1).2).fetchCalls, ks.Nodup) :=
  batch_keys_distinct (fun ks => (ks.map some, ks.map (fun _ => none))) 0
    (loadThunkStep (initConfig (fun ks => (ks.map some, ks.map (fun _ => none))) 0) 1).2
    (Relation.ReflTransGen.single
      (Step.load (initConfig (fun ks => (ks.map some, ks.map (fun _ => none))) 0) 1))

/-! ## C3: lock discipline of the flush paths -/

/-- C3 counterexample: it is not the case that both flush paths run the
fetch collaborator without holding the loader's mutex — on the timeout path
(`startTimer` reaching `b.end(l)` with `closing = false`), the fetch runs
between `l.mu.Lock()` and the deferred `l.mu.Unlock()`. -/
theorem timer_path_fetch_under_lock :
    ¬ (fetchHeldLock (startTimerTrace false) = false ∧
       fetchHeldLock capacityEndTrace = false) := by
  decide

/-- C3 amended: the capacity-triggered path runs the fetch collaborator in a
spawned goroutine that holds no lock, but the wait-window timeout path runs
the fetch collaborator while the timer goroutine holds the loader's mutex
(released only after `end` returns); the early-return timeout path performs
no fetch under the lock because it performs no fetch at all. -/
theorem flush_paths_lock_discipline :
    fetchHeldLock capacityEndTrace = false ∧
    fetchHeldLock (startTimerTrace false) = true ∧
    fetchHeldLock (startTimerTrace true) = false := by
  decide

/-! ## C7: LoadAll attaches all keys first, outputs aligned to input -/

theorem loadAllThunks_length {K V E : Type} [DecidableEq K] :
    ∀ (keys : List K) (c : Config K V E),
      (loadAllThunks c keys).1.length = keys.length
  | [], _ => rfl
  | key :: rest, c => by
    simp [loadAllThunks, loadAllThunks_length rest]

theorem resolveAll_values_length {K V E : Type} [DecidableEq K] :
    ∀ (ts : List (LoadedThunk K V E)) (c : Config K V E),
      (resolveAll c ts).1.1.length = ts.length
  | [], _ => rfl
  | t :: rest, c => by
    simp [resolveAll, resolveAll_values_length rest]

theorem resolveAll_errors_length {K V E : Type} [DecidableEq K] :
    ∀ (ts : List (LoadedThunk K V E)) (c : Config K V E),
      (resolveAll c ts).1.2.length = ts.length
  | [], _ => rfl
  | t :: rest, c => by
    simp [resolveAll, resolveAll_errors_length rest]

theorem loadAllThunks_getD {K V E : Type} [DecidableEq K] (dk : K) :
    ∀ (keys : List K) (c : Config K V E) (i : Nat), i < keys.length →
      (loadAllThunks c keys).1.getD i (.cached none) =
        (loadThunkStep (loadAllThunks c (keys.take i)).2 (keys.getD i dk)).1
  | [], _, i, h => absurd h (by simp)
  | key :: rest, c, 0, _ => by simp [loadAllThunks]
  | key :: rest, c, i + 1, h => by
    have ih := loadAllThunks_getD dk rest (loadThunkStep c key).2 i (by simpa using h)
    simpa [loadAllThunks, List.take_succ_cons] using ih

theorem resolveAll_values_getD {K V E : Type} [DecidableEq K] :
    ∀ (ts : List (LoadedThunk K V E)) (c : Config K V E) (i : Nat), i < ts.length →
      (resolveAll c ts).1.1.getD i none =
        (resolveOne (resolveAll c (ts.take i)).2 (ts.getD i (.cached none))).1.1
  | [], _, i, h => absurd h (by simp)
  | t :: rest, c, 0, _ => by simp [resolveAll]
  | t :: rest, c, i + 1, h => by
    have ih := resolveAll_values_getD rest (resolveOne c t).2 i (by simpa using h)
    simpa [resolveAll, List.take_succ_cons] using ih

theorem resolveAll_errors_getD {K V E : Type} [DecidableEq K] :
    ∀ (ts : List (LoadedThunk K V E)) (c : Config K V E) (i : Nat), i < ts.length →
      (resolveAll c ts).1.2.getD i none =
        (resolveOne (resolveAll c (ts.take i)).2 (ts.getD i (.cached none))).1.2
  | [], _, i, h => absurd h (by simp)
  | t :: rest, c, 0, _ => by simp [resolveAll]
  | t :: rest, c, i + 1, h => by
    have ih := resolveAll_errors_getD rest (resolveOne c t).2 i (by simpa using h)
    simpa [resolveAll, List.take_succ_cons] using ih

/-- C7: `LoadAll` first collects one deferred per key in a single pass (the
`i`-th deferred is obtained by attaching the `i`-th input key to the state
after attaching the first `i` keys, before any resolution), then resolves
them in order; the two outputs have the input's length, and the `i`-th
output pair is the resolution of the `i`-th deferred, i.e. the outputs are
positionally aligned to the input key order. -/
theorem loadAll_aligned {K V E : Type} [DecidableEq K] (c : Config K V E)
    (keys : List K) (i : Nat) (dk : K) (h : i < keys.length) :
    (loadAllThunks c keys).1.length = keys.length ∧
    loadAll c keys = resolveAll (loadAllThunks c keys).2 (loadAllThunks c keys).1 ∧
    (loadAll c keys).1.1.length = keys.length ∧
    (loadAll c keys).1.2.length = keys.length ∧
    (loadAllThunks c keys).1.getD i (.cached none)
      = (loadThunkStep (loadAllThunks c (keys.take i)).2 (keys.getD i dk)).1 ∧
    (loadAll c keys).1.1.getD i none =
      (resolveOne (resolveAll (loadAllThunks c keys).2
          ((loadAllThunks c keys).1.take i)).2
        ((loadAllThunks c keys).1.getD i (.cached none))).1.1 ∧
    (loadAll c keys).1.2.getD i none =
      (resolveOne (resolveAll (loadAllThunks c keys).2
          ((loadAllThunks c keys).1.take i)).2
        ((loadAllThunks c keys).1.getD i (.cached none))).1.2 := by
  have hlen := loadAllThunks_length keys c
  have hi : i < (loadAllThunks c keys).1.length := by rw [hlen]; exact h
  refine ⟨hlen, rfl, ?_, ?_, loadAllThunks_getD dk keys c i h, ?_, ?_⟩
  · rw [loadAll, resolveAll_values_length, hlen]
  · rw [loadAll, resolveAll_errors_length, hlen]
  · exact resolveAll_values_getD (loadAllThunks c keys).1 (loadAllThunks c keys).2 i hi
  · exact resolveAll_errors_getD (loadAllThunks c keys).1 (loadAllThunks c keys).2 i hi

/-- C7 witness: `LoadAll` of `[1, 2]` on a fresh unbounded loader. -/
theorem loadAll_aligned_witness :
    (0 < ([1, 2] : List Nat).length) ∧
    ((loadAllThunks ((initConfig (K := Nat) (V := Nat) (E := String) (fun ks => (ks.map some, ks.map (fun _ => none))) 0)) [1, 2]).1.length =
      ([1, 2] : List Nat).length ∧
    loadAll ((initConfig (K := Nat) (V := Nat) (E := String) (fun ks => (ks.map some, ks.map (fun _ => none))) 0)) [1, 2] =
      resolveAll (loadAllThunks ((initConfig (K := Nat) (V := Nat) (E := String) (fun ks => (ks.map some, ks.map (fun _ => none))) 0)) [1, 2]).2
        (loadAllThunks ((initConfig (K := Nat) (V := Nat) (E := String) (fun ks => (ks.map some, ks.map (fun _ => none))) 0)) [1, 2]).1 ∧
    (loadAll ((initConfig (K := Nat) (V := Nat) (E := String) (fun ks => (ks.map some, ks.map (fun _ => none))) 0)) [1, 2]).1.1.length =
      ([1, 2] : List Nat).length ∧
    (loadAll ((initConfig (K := Nat) (V := Nat) (E := String) (fun ks => (ks.map some, ks.map (fun _ => none))) 0)) [1, 2]).1.2.length =
      ([1, 2] : List Nat).length ∧
    (loadAllThunks ((initConfig (K := Nat) (V := Nat) (E := String) (fun ks => (ks.map some, ks.map (fun _ => none))) 0)) [1, 2]).1.getD 0 (.cached none)
      = (loadThunkStep (loadAllThunks ((initConfig (K := Nat) (V := Nat) (E := String) (fun ks => (ks.map some, ks.map (fun _ => none))) 0))
            (([1, 2] : List Nat).take 0)).2 (([1, 2] : List Nat).getD 0 7)).1 ∧
    (loadAll ((initConfig (K := Nat) (V := Nat) (E := String) (fun ks => (ks.map some, ks.map (fun _ => none))) 0)) [1, 2]).1.1.getD 0 none =
      (resolveOne (resolveAll (loadAllThunks ((initConfig (K := Nat) (V := Nat) (E := String) (fun ks => (ks.map some, ks.map (fun _ => none))) 0)) [1, 2]).2
          ((loadAllThunks ((initConfig (K := Nat) (V := Nat) (E := String) (fun ks => (ks.map some, ks.map (fun _ => none))) 0)) [1, 2]).1.take 0)).2
        ((loadAllThunks ((initConfig (K := Nat) (V := Nat) (E := String) (fun ks => (ks.map some, ks.map (fun _ => none))) 0)) [1, 2]).1.getD 0
            (.cached none))).1.1 ∧
    (loadAll ((initConfig (K := Nat) (V := Nat) (E := String) (fun ks => (ks.map some, ks.map (fun _ => none))) 0)) [1, 2]).1.2.getD 0 none =
      (resolveOne (resolveAll (loadAllThunks ((initConfig (K := Nat) (V := Nat) (E := String) (fun ks => (ks.map some, ks.map (fun _ => none))) 0)) [1, 2]).2
          ((loadAllThunks ((initConfig (K := Nat) (V := Nat) (E := String) (fun ks => (ks.map some, ks.map (fun _ => none))) 0)) [1, 2]).1.take 0)).2
        ((loadAllThunks ((initConfig (K := Nat) (V := Nat) (E := String) (fun ks => (ks.map some, ks.map (fun _ => none))) 0)) [1, 2]).1.getD 0
            (.cached none))).1.2) :=
  ⟨by decide,
   loadAll_aligned ((initConfig (K := Nat) (V := Nat) (E := String) (fun ks => (ks.map some, ks.map (fun _ => none))) 0))
     [1, 2] 0 7 (by decide)⟩

/-! ## C8: the default aggregate error formatter -/

/-- C8: with no custom formatter, a single error renders as exactly its own
message; otherwise the output is the summary header stating the total error
count followed by one `" * <count> <message>\n"` line per distinct message,
where the groups carry the exact occurrence counts of their messages in the
input, cover exactly the input's messages without repetition, and appear in
(weakly) descending order of occurrence count. -/
theorem defaultFormatErrors_spec (errs : List String) (h : 2 ≤ errs.length) :
    (∀ e : String, defaultFormatErrors [e] = e) ∧
    ∃ gs : List (String × Nat),
      (gs.map Prod.fst).Nodup ∧
      (∀ m : String, m ∈ errs ↔ m ∈ gs.map Prod.fst) ∧
      (∀ p ∈ gs, p.2 = errs.count p.1) ∧
      gs.Chain' (fun a b => b.2 ≤ a.2) ∧
      defaultFormatErrors errs =
        toString errs.length ++ " errors occurred:\n" ++
          String.join (gs.map (fun p => " * " ++ toString p.2 ++ " " ++ p.1 ++ "\n")) ++
          "\n" := by
  constructor
  · intro e; simp [defaultFormatErrors]
  · have hperm : List.Perm
        ((countsByErrors errs).mergeSort (fun a b => decide (b.2 ≤ a.2)))
        (countsByErrors errs) := List.mergeSort_perm _ _
    have hmf : (countsByErrors errs).map Prod.fst = errs.dedup := by
      simp only [countsByErrors, List.map_map]
      exact List.map_id errs.dedup
    refine ⟨(countsByErrors errs).mergeSort (fun a b => decide (b.2 ≤ a.2)),
      ?_, ?_, ?_, ?_, ?_⟩
    · exact ((hperm.map Prod.fst).nodup_iff).mpr (hmf ▸ errs.nodup_dedup)
    · intro m
      rw [(hperm.map Prod.fst).mem_iff, hmf, List.mem_dedup]
    · intro p hp
      have hp2 : p ∈ countsByErrors errs := hperm.mem_iff.mp hp
      obtain ⟨m, -, rfl⟩ := List.mem_map.mp hp2
      rfl
    · have htrans : ∀ (a b c3 : String × Nat),
          (decide (b.2 ≤ a.2)) = true → (decide (c3.2 ≤ b.2)) = true →
          (decide (c3.2 ≤ a.2)) = true := by
        intro a b c3 h1 h2
        simp only [decide_eq_true_eq] at h1 h2 ⊢
        omega
      have htotal : ∀ (a b : String × Nat),
          ((decide (b.2 ≤ a.2)) || (decide (a.2 ≤ b.2))) = true := by
        intro a b
        simp only [Bool.or_eq_true, decide_eq_true_eq]
        omega
      have hs : ((countsByErrors errs).mergeSort (fun a b => decide (b.2 ≤ a.2))).Pairwise
          (fun a b => (decide (b.2 ≤ a.2)) = true) :=
        List.sorted_mergeSort htrans htotal (countsByErrors errs)
      exact (hs.imp (fun hab => by simpa using hab)).chain'
    · rw [defaultFormatErrors, if_neg (by omega)]

/-- C8 witness: rendering `["a", "b", "a"]`. -/
theorem defaultFormatErrors_spec_witness :
    (2 ≤ (["a", "b", "a"] : List String).length) ∧
    ((∀ e : String, defaultFormatErrors [e] = e) ∧
    ∃ gs : List (String × Nat),
      (gs.map Prod.fst).Nodup ∧
      (∀ m : String, m ∈ (["a", "b", "a"] : List String) ↔ m ∈ gs.map Prod.fst) ∧
      (∀ p ∈ gs, p.2 = (["a", "b", "a"] : List String).count p.1) ∧
      gs.Chain' (fun a b => b.2 ≤ a.2) ∧
      defaultFormatErrors ["a", "b", "a"] =
        toString (["a", "b", "a"] : List String).length ++ " errors occurred:\n" ++
          String.join (gs.map (fun p => " * " ++ toString p.2 ++ " " ++ p.1 ++ "\n")) ++
          "\n") :=
  ⟨by decide, defaultFormatErrors_spec ["a", "b", "a"] (by decide)⟩

end Dataloaden
